import Mathlib

/-!
Shallow embedding of `semantics_task.py`, a single linear PsychoPy script
that runs a forced-choice semantics experiment: it reads trial rows from a
CSV, groups them into six condition blocks, shuffles blocks and trials,
presents each trial, polls the keyboard with a 10-second timeout, and
appends one result row per trial to an output file.

The embedding translates the script's data and control flow into pure
functions.  Toolkit primitives (the keyboard poll, the random draws, clock
readings) become explicit inputs; the script's observable behaviour (file
writes, blocking waits, escape checks, resource closes, quitting) becomes
an event trace.
-/

/-- One keyboard key object returned by the toolkit poll, with its `name`
and reaction time `rt` (relative to the clock reset at stimulus onset). -/
structure Key where
  name : String
  rt : ℚ
deriving DecidableEq

/-- Value of the script's `rt` variable at write time: a numeric reaction
time, or the literal unavailable marker `'NA'` assigned on timeout. -/
inductive RTVal where
  | val (t : ℚ)
  | NA
deriving DecidableEq

/-- One data row loaded from `trials.csv`: fields `row[0]`..`row[5]`
(condition, target, word1, word2, word3, correct answer key). -/
structure Row where
  cond : String
  target : String
  w1 : String
  w2 : String
  w3 : String
  correct : String
deriving DecidableEq

/-- The script's mutable trial variables `answer`, `rt`, `iscorrect`,
`time`, threaded across loop iterations exactly as the Python locals are. -/
structure Vars where
  answer : String
  rt : RTVal
  iscorrect : Nat
  time : ℚ
deriving DecidableEq

/-- One result row as written by line 153 of the script: the six trial
fields interleaved with the response variables. -/
structure ResultRow where
  cond : String
  target : String
  w1 : String
  w2 : String
  w3 : String
  answer : String
  correct : String
  rt : RTVal
  iscorrect : Nat
  time : ℚ
deriving DecidableEq

/-- Lines 138-145: the `for key in stim_keys` loop.  Every iteration
overwrites `answer`, `rt`, `iscorrect` and `time`, so the accumulator is
ignored by the step function and the last key wins. -/
def keyLoop (row : Row) (tDiff : ℚ) (v : Vars) (keys : List Key) : Vars :=
  keys.foldl
    (fun _ k =>
      { answer := k.name
        rt := RTVal.val k.rt
        iscorrect := if k.name = row.correct then 1 else 0
        time := tDiff })
    v

/-- Whether the poll result contains an escape key (`'escape' in stim_keys`). -/
def hasEscape : Option (List Key) → Bool
  | some ks => ks.any (fun k => k.name = "escape")
  | none => false

/-- Lines 132-150: response recording for one trial.  `stimKeys` is the
poll result (`none` on timeout; the empty list is also falsy for
`if stim_keys:`).  Returns `none` when the escape branch calls
`terminate()`, otherwise the updated trial variables.  `v` is the value of
the trial variables left over from earlier iterations. -/
def runTrialVars (row : Row) (stimKeys : Option (List Key))
    (trialTime startTime : ℚ) (v : Vars) : Option Vars :=
  match stimKeys with
  | some (k :: ks) =>
    if (k :: ks).any (fun key => key.name = "escape") then
      none
    else
      some (keyLoop row (trialTime - startTime) v (k :: ks))
  | _ =>
    some { answer := "", rt := RTVal.NA, iscorrect := 0, time := trialTime - startTime }

/-- Line 153: the f-string written to the results file, as a record. -/
def writtenRow (row : Row) (v : Vars) : ResultRow :=
  { cond := row.cond
    target := row.target
    w1 := row.w1
    w2 := row.w2
    w3 := row.w3
    answer := v.answer
    correct := row.correct
    rt := v.rt
    iscorrect := v.iscorrect
    time := v.time }

/-- Lines 61-64: the fixed condition list before shuffling, and the keys of
the bucket dictionary `data_dict`. -/
def baseConditions : List String := ["high", "low", "colour", "size", "texture", "shape"]

/-- Line 64: the bucket comprehension
`[row for row in data if row[0] == x]` for one condition label `x`. -/
def bucket (data : List Row) (x : String) : List Row :=
  data.filter (fun r => r.cond = x)

/-- One step of CPython's Fisher-Yates `random.shuffle`:
`x[i], x[j] = x[j], x[i]` (a no-op when an index is out of range, which
never happens for in-range calls). -/
def listSwap {α : Type} (l : List α) (i j : Nat) : List α :=
  match l[i]?, l[j]? with
  | some a, some b => (l.set i b).set j a
  | _, _ => l

/-- The loop of CPython's `random.shuffle`:
`for i in reversed(range(1, len(x))): j = _randbelow(i+1); swap x[i] x[j]`.
The argument counts the current index; `_randbelow (i+1)` is modelled as
`rand i % (i+1)`, which ranges over exactly `0..i`. -/
def shuffleFrom {α : Type} (rand : Nat → Nat) : Nat → List α → List α
  | 0, l => l
  | i+1, l => shuffleFrom rand i (listSwap l (i+1) (rand (i+1) % (i+2)))

/-- Lines 62 and 98: `random.shuffle`, parameterised by the stream of
random draws. -/
def shuffle {α : Type} (l : List α) (rand : Nat → Nat) : List α :=
  shuffleFrom rand (l.length - 1) l

theorem ms_set {α : Type} (l : List α) (n : Nat) (a : α) (h : n < l.length) :
    ((l.set n a : List α) : Multiset α) + {l[n]} = (l : Multiset α) + {a} := by
  conv_rhs => rw [← List.take_append_drop n l]
  rw [List.set_eq_take_cons_drop a h, ← List.cons_getElem_drop_succ (h := h)]
  rw [← Multiset.coe_add, ← Multiset.coe_add, ← Multiset.cons_coe, ← Multiset.cons_coe,
    ← Multiset.singleton_add, ← Multiset.singleton_add]
  simp only [add_comm, add_assoc, add_left_comm]

theorem listSwap_multiset {α : Type} (l : List α) (i j : Nat) :
    ((listSwap l i j : List α) : Multiset α) = (l : Multiset α) := by
  unfold listSwap
  cases hi : l[i]? with
  | none => cases l[j]? <;> rfl
  | some a =>
    cases hj : l[j]? with
    | none => rfl
    | some b =>
      obtain ⟨hil, hia⟩ := List.getElem?_eq_some_iff.mp hi
      obtain ⟨hjl, hjb⟩ := List.getElem?_eq_some_iff.mp hj
      have hjl' : j < (l.set i b).length := by simpa using hjl
      have hset : (l.set i b)[j] = b := by
        by_cases hij : i = j
        · subst hij
          simp
        · rw [List.getElem_set_ne hij]
          exact hjb
      have h1 := ms_set (l.set i b) j a hjl'
      have h2 := ms_set l i b hil
      rw [hset] at h1
      rw [hia] at h2
      have h3 : (((l.set i b).set j a : List α) : Multiset α) + {b} =
          (l : Multiset α) + {b} := by
        rw [h1, h2]
      exact add_right_cancel h3

theorem shuffleFrom_multiset {α : Type} (rand : Nat → Nat) :
    ∀ (n : Nat) (l : List α), ((shuffleFrom rand n l : List α) : Multiset α) = (l : Multiset α)
  | 0, _ => rfl
  | n+1, l => by
    rw [shuffleFrom, shuffleFrom_multiset rand n, listSwap_multiset]

/-- Shuffling never changes the multiset of elements. -/
theorem shuffle_multiset {α : Type} (l : List α) (rand : Nat → Nat) :
    ((shuffle l rand : List α) : Multiset α) = (l : Multiset α) :=
  shuffleFrom_multiset rand (l.length - 1) l

/-- Shuffling is a permutation in the `List.Perm` sense. -/
theorem shuffle_perm {α : Type} (l : List α) (rand : Nat → Nat) :
    List.Perm (shuffle l rand) l :=
  Multiset.coe_eq_coe.mp (shuffle_multiset l rand)

theorem shuffle_length {α : Type} (l : List α) (rand : Nat → Nat) :
    (shuffle l rand).length = l.length :=
  (shuffle_perm l rand).length_eq

theorem shuffle_nodup {α : Type} (l : List α) (rand : Nat → Nat)
    (h : l.Nodup) : (shuffle l rand).Nodup :=
  (shuffle_perm l rand).nodup_iff.mpr h

/-- One observable event of the script: the header write, a result-row
write, a blocking wait (tagged with its site, carrying its duration and
whether the participant pressed escape during it), an escape check, a
resource close, or quitting (`true` when quitting through `terminate()`). -/
inductive Event where
  | writeHeader
  | writeRow (r : ResultRow)
  | wait (tag : String) (d : ℚ) (escDuring : Bool)
  | checkEsc (pressed : Bool)
  | closeWin
  | closeFile
  | quit (viaTerminate : Bool)
deriving DecidableEq

/-- Lines 10-14: `terminate()` closes the window, closes the results file,
prints a message and quits. -/
def termTrace : List Event := [Event.closeWin, Event.closeFile, Event.quit true]

/-- Per-trial toolkit inputs: the poll result of
`kb.waitKeys(keyList=['1','2','3','escape'], maxWait=10)` (`none` on
timeout), the clock reading at stimulus onset, the fixation duration drawn
by `random.uniform(0.5, 2.5)`, and whether escape is pressed during that
fixation pause. -/
structure TrialIn where
  stimKeys : Option (List Key)
  trialTime : ℚ
  fixDraw : ℚ
  escDuringFix : Bool

/-- All toolkit inputs of one session after the startup dialog was
confirmed: the loaded CSV rows, the randomness streams of the two shuffle
call sites, the clock reading taken after the start keys, the per-trial
inputs (indexed by block and trial position), the break durations drawn by
`random.uniform(3.75, 6.25)`, and the escape presses during each blocking
wait.  Escape presses are observed only by the check that follows the
wait; a press during an unchecked wait is consumed without effect.
`v0` is the arbitrary content of the trial variables before their first
assignment. -/
structure SIn where
  data : List Row
  condRand : Nat → Nat
  trialRand : Nat → Nat → Nat
  startTime : ℚ
  startEsc : Bool
  escDuringFix0 : Bool
  escDuringInstr : Nat → Bool
  tIn : Nat → Nat → TrialIn
  breakDraw : Nat → ℚ
  escDuringBreak : Nat → Bool
  escDuringEnd : Bool
  v0 : Vars

/-- Lines 114-158, one iteration of `for row in condition_data`: draw the
stimuli, poll the keyboard for at most 10 seconds, record the response
(terminating on escape), write one result row, and show the fixation pause
(which no escape check follows). -/
def trialStep (row : Row) (t : TrialIn) (startTime : ℚ) (v : Vars) :
    List Event × Option Vars :=
  match runTrialVars row t.stimKeys t.trialTime startTime v with
  | none => (Event.wait "poll" 10 true :: termTrace, none)
  | some v' =>
    ([Event.wait "poll" 10 (hasEscape t.stimKeys),
      Event.writeRow (writtenRow row v'),
      Event.wait "trialFixation" t.fixDraw t.escDuringFix], some v')

/-- The trial loop over the shuffled rows of one block; `i` counts the
trial position within the block, and the trial variables are threaded. -/
def runTrials (startTime : ℚ) (tin : Nat → TrialIn) :
    List Row → Nat → Vars → List Event × Option Vars
  | [], _, v => ([], some v)
  | row :: rest, i, v =>
    match trialStep row (tin i) startTime v with
    | (tr, none) => (tr, none)
    | (tr, some v') =>
      let next := runTrials startTime tin rest (i+1) v'
      (tr ++ next.1, next.2)

/-- Lines 95-167, the block loop over `data_dict.keys()` (which iterates in
the order of the shuffled `condition` list): per block, show the
instruction for `brief_time` seconds and check escape, shuffle and run the
block's trials, and — unless the block label equals `condition[5]` — draw a
new `brief_time`, show the break for that long and check escape.  `b` is
the block index and `briefTime` threads the script's `brief_time`
variable. -/
def runBlocks (sin : SIn) (lastCond : String) :
    List String → Nat → ℚ → Vars → List Event × Option Vars
  | [], _, _, v => ([], some v)
  | x :: rest, b, briefTime, v =>
    let instr := Event.wait "instruction" briefTime (sin.escDuringInstr b)
    if sin.escDuringInstr b then
      ([instr, Event.checkEsc true] ++ termTrace, none)
    else
      let rows := shuffle (bucket sin.data x) (sin.trialRand b)
      match runTrials sin.startTime (sin.tIn b) rows 0 v with
      | (tr, none) => ([instr, Event.checkEsc false] ++ tr, none)
      | (tr, some v') =>
        if x ≠ lastCond then
          let bd := sin.breakDraw b
          let brk := Event.wait "break" bd (sin.escDuringBreak b)
          if sin.escDuringBreak b then
            ([instr, Event.checkEsc false] ++ tr ++ [brk, Event.checkEsc true] ++ termTrace,
              none)
          else
            let next := runBlocks sin lastCond rest (b+1) bd v'
            ([instr, Event.checkEsc false] ++ tr ++ [brk, Event.checkEsc false] ++ next.1,
              next.2)
        else
          let next := runBlocks sin lastCond rest (b+1) briefTime v'
          ([instr, Event.checkEsc false] ++ tr ++ next.1, next.2)

/-- Lines 44-178 after the dialog was confirmed: open the window, load the
data, open the results file and write the header, shuffle the condition
list, show the welcome brief and wait for space or escape (terminating on
escape), show the initial fixation for 5 seconds and check escape, then run
the six blocks with `brief_time` initially 5; on normal completion show the
end screen for 5 seconds (no escape check follows) and close the file, the
window, and quit. -/
def runSession (sin : SIn) : List Event :=
  let conds := shuffle baseConditions sin.condRand
  let pre := [Event.writeHeader, Event.wait "startKeys" 0 sin.startEsc]
  if sin.startEsc then
    pre ++ termTrace
  else
    let fix0 := [Event.wait "fixation0" 5 sin.escDuringFix0]
    if sin.escDuringFix0 then
      pre ++ fix0 ++ [Event.checkEsc true] ++ termTrace
    else
      match runBlocks sin (conds.getD 5 "") conds 0 5 sin.v0 with
      | (tr, none) => pre ++ fix0 ++ [Event.checkEsc false] ++ tr
      | (tr, some _) =>
        pre ++ fix0 ++ [Event.checkEsc false] ++ tr ++
          [Event.wait "endScreen" 5 sin.escDuringEnd,
            Event.closeFile, Event.closeWin, Event.quit false]

/-- The result rows appearing in a trace, in order. -/
def writtenRows (tr : List Event) : List ResultRow :=
  tr.filterMap (fun e =>
    match e with
    | Event.writeRow r => some r
    | _ => none)

/-- The durations of the waits carrying a given tag, in order. -/
def waitsTagged (tag : String) (tr : List Event) : List ℚ :=
  tr.filterMap (fun e =>
    match e with
    | Event.wait t d _ => if t = tag then some d else none
    | _ => none)

/-- Whether an event closes the results file. -/
def isCloseFile : Event → Bool
  | Event.closeFile => true
  | _ => false

/-- Whether an event writes a result row. -/
def isRowWrite : Event → Bool
  | Event.writeRow _ => true
  | _ => false

/-- A trace never appends a result row after the results file was closed. -/
def noWriteAfterClose : List Event → Bool
  | [] => true
  | Event.closeFile :: rest => rest.all (fun e => !isRowWrite e)
  | _ :: rest => noWriteAfterClose rest

/-- Classification: events emitted inside the trial loop (the stimulus
poll, the row write, the trial fixation pause). -/
def isTrialEvent : Event → Bool
  | Event.wait tag _ _ => tag == "poll" || tag == "trialFixation"
  | Event.writeRow _ => true
  | _ => false

/-- Classification: every event except resource closes and quits. -/
def isLiveEvent : Event → Bool
  | Event.closeWin => false
  | Event.closeFile => false
  | Event.quit _ => false
  | _ => true

/-- Whether an event is a stimulus poll during which no escape arrived,
i.e. a trial that was reached and not escaped. -/
def isCleanPoll : Event → Bool
  | Event.wait tag _ esc => tag == "poll" && !esc
  | _ => false

/-- Number of result rows written in a trace. -/
def countWrites (tr : List Event) : Nat := tr.countP isRowWrite

/-- Number of trials reached and not escaped in a trace. -/
def countCleanPolls (tr : List Event) : Nat := tr.countP isCleanPoll

theorem keyLoop_eq_last (row : Row) (tDiff : ℚ) (v : Vars) (k : Key) (ks : List Key) :
    keyLoop row tDiff v (k :: ks) =
      { answer := ((k :: ks).getLast (List.cons_ne_nil k ks)).name
        rt := RTVal.val ((k :: ks).getLast (List.cons_ne_nil k ks)).rt
        iscorrect :=
          if ((k :: ks).getLast (List.cons_ne_nil k ks)).name = row.correct then 1 else 0
        time := tDiff } := by
  induction ks generalizing v k with
  | nil => rfl
  | cons k2 ks ih =>
    have hstep : keyLoop row tDiff v (k :: k2 :: ks) =
        keyLoop row tDiff
          { answer := k.name
            rt := RTVal.val k.rt
            iscorrect := if k.name = row.correct then 1 else 0
            time := tDiff } (k2 :: ks) := rfl
    rw [hstep, ih]
    simp [List.getLast]

theorem runTrialVars_none_iff (row : Row) (sk : Option (List Key)) (tt st : ℚ) (v : Vars) :
    runTrialVars row sk tt st v = none ↔ hasEscape sk = true := by
  cases sk with
  | none => simp [runTrialVars, hasEscape]
  | some ks =>
    cases ks with
    | nil => simp [runTrialVars, hasEscape]
    | cons k ks =>
      by_cases h : (k :: ks).any (fun key => key.name = "escape") = true
      · simp [runTrialVars, hasEscape, h]
      · simp [runTrialVars, hasEscape, h]

theorem runTrialVars_some_correct (row : Row) (sk : Option (List Key)) (tt st : ℚ)
    (v v' : Vars) (h : runTrialVars row sk tt st v = some v') (hc : row.correct ≠ "") :
    (v'.iscorrect = 1 ↔ v'.answer = row.correct) := by
  cases sk with
  | none =>
    simp only [runTrialVars, Option.some.injEq] at h
    subst h
    simp [hc.symm]
  | some ks =>
    cases ks with
    | nil =>
      simp only [runTrialVars, Option.some.injEq] at h
      subst h
      simp [hc.symm]
    | cons k ks =>
      by_cases hesc : (k :: ks).any (fun key => key.name = "escape") = true
      · simp [runTrialVars, hesc] at h
      · simp only [runTrialVars, hesc, Bool.false_eq_true, ite_false, Option.some.injEq] at h
        subst h
        rw [keyLoop_eq_last]
        by_cases hname : ((k :: ks).getLast (List.cons_ne_nil k ks)).name = row.correct
        · simp [hname]
        · simp [hname]

theorem runTrialVars_some_noesc (row : Row) (sk : Option (List Key)) (tt st : ℚ)
    (v v' : Vars) (h : runTrialVars row sk tt st v = some v') : hasEscape sk = false := by
  by_cases he : hasEscape sk = true
  · rw [(runTrialVars_none_iff row sk tt st v).mpr he] at h
    exact absurd h (by simp)
  · exact eq_false_of_ne_true he

/-- C3 (confirmed): for a trial whose 10-second poll times out
(`stim_keys` is `None`), the single result row written by the trial records
an empty `Answer`, `RT` equal to the literal unavailable marker, and
`IsCorrect` equal to 0. -/
theorem c3_timeout_row (row : Row) (t : TrialIn) (st : ℚ) (v : Vars)
    (h : t.stimKeys = none) :
    trialStep row t st v =
      ([Event.wait "poll" 10 false,
        Event.writeRow (writtenRow row
          { answer := "", rt := RTVal.NA, iscorrect := 0, time := t.trialTime - st }),
        Event.wait "trialFixation" t.fixDraw t.escDuringFix],
        some { answer := "", rt := RTVal.NA, iscorrect := 0, time := t.trialTime - st }) := by
  simp [trialStep, runTrialVars, hasEscape, h]

/-- Concrete trial row used by witnesses: `high,cat,dog,fish,kitten,1`. -/
def rowCat : Row :=
  { cond := "high", target := "cat", w1 := "dog", w2 := "fish", w3 := "kitten", correct := "1" }

/-- Concrete trial row used by witnesses: `size,truck,bus,car,bike,3`. -/
def rowTruck : Row :=
  { cond := "size", target := "truck", w1 := "bus", w2 := "car", w3 := "bike", correct := "3" }

/-- Witness for `c3_timeout_row` at a concrete trial. -/
theorem c3_timeout_row_witness :
    trialStep rowCat
      { stimKeys := none, trialTime := 7, fixDraw := 1, escDuringFix := false } 2
      { answer := "3", rt := RTVal.val 4, iscorrect := 1, time := 0 } =
      ([Event.wait "poll" 10 false,
        Event.writeRow (writtenRow rowCat
          { answer := "", rt := RTVal.NA, iscorrect := 0, time := 7 - 2 }),
        Event.wait "trialFixation" 1 false],
        some { answer := "", rt := RTVal.NA, iscorrect := 0, time := 7 - 2 }) :=
  c3_timeout_row _ _ _ _ rfl

/-- C4 (amended): on timeout the trial variables are reset — `answer`
becomes empty and `rt` becomes the unavailable marker — so the written
values are identical for any two states of the variables left over from
earlier trials; no stale reaction time can be reused. -/
theorem c4_timeout_resets (row : Row) (tt st : ℚ) (v w : Vars) :
    runTrialVars row none tt st v = runTrialVars row none tt st w ∧
    runTrialVars row none tt st v =
      some { answer := "", rt := RTVal.NA, iscorrect := 0, time := tt - st } :=
  ⟨rfl, rfl⟩

/-- C9 (confirmed): when the poll returns several keys and none of them is
escape, the recorded answer, reaction time and correctness are those of the
last key in the returned list; earlier keys are overwritten. -/
theorem c9_last_key_wins (row : Row) (tt st : ℚ) (v : Vars) (k : Key) (ks : List Key)
    (hesc : (k :: ks).any (fun key => key.name = "escape") = false) :
    runTrialVars row (some (k :: ks)) tt st v =
      some { answer := ((k :: ks).getLast (List.cons_ne_nil k ks)).name
             rt := RTVal.val ((k :: ks).getLast (List.cons_ne_nil k ks)).rt
             iscorrect :=
               if ((k :: ks).getLast (List.cons_ne_nil k ks)).name = row.correct then 1
               else 0
             time := tt - st } := by
  simp only [runTrialVars, hesc, Bool.false_eq_true, ite_false]
  rw [keyLoop_eq_last]

/-- Witness for `c9_last_key_wins`: two non-escape keys; the second one is
recorded. -/
theorem c9_last_key_wins_witness :
    ((⟨"1", 2⟩ : Key) :: [(⟨"3", 5⟩ : Key)]).any (fun key => key.name = "escape") = false ∧
    runTrialVars rowTruck
      (some ((⟨"1", 2⟩ : Key) :: [(⟨"3", 5⟩ : Key)])) 9 1
      { answer := "", rt := RTVal.NA, iscorrect := 0, time := 0 } =
      some { answer := "3", rt := RTVal.val 5, iscorrect := 1, time := 9 - 1 } := by
  refine ⟨by decide, ?_⟩
  rw [c9_last_key_wins _ _ _ _ _ _ (by decide)]
  rfl

theorem trialStep_eq_none (row : Row) (t : TrialIn) (st : ℚ) (v : Vars)
    (h : runTrialVars row t.stimKeys t.trialTime st v = none) :
    trialStep row t st v = (Event.wait "poll" 10 true :: termTrace, none) := by
  unfold trialStep
  rw [h]

theorem trialStep_eq_some (row : Row) (t : TrialIn) (st : ℚ) (v v' : Vars)
    (h : runTrialVars row t.stimKeys t.trialTime st v = some v') :
    trialStep row t st v =
      ([Event.wait "poll" 10 false,
        Event.writeRow (writtenRow row v'),
        Event.wait "trialFixation" t.fixDraw t.escDuringFix], some v') := by
  unfold trialStep
  rw [h, runTrialVars_some_noesc row t.stimKeys t.trialTime st v v' h]

theorem runTrials_trace (st : ℚ) (tin : Nat → TrialIn) :
    ∀ (rows : List Row) (i : Nat) (v : Vars),
      (∃ p, (runTrials st tin rows i v).1 = p ++ termTrace ∧ p.all isTrialEvent = true ∧
        (runTrials st tin rows i v).2 = none) ∨
      ((runTrials st tin rows i v).1.all isTrialEvent = true ∧
        ∃ v', (runTrials st tin rows i v).2 = some v')
  | [], i, v => Or.inr ⟨rfl, v, rfl⟩
  | row :: rest, i, v => by
    cases h : runTrialVars row ((tin i)).stimKeys ((tin i)).trialTime st v with
    | none =>
      left
      refine ⟨[Event.wait "poll" 10 true], ?_, by decide, ?_⟩ <;>
        simp [runTrials, trialStep_eq_none row (tin i) st v h, termTrace]
    | some v' =>
      have hstep := trialStep_eq_some row (tin i) st v v' h
      cases runTrials_trace st tin rest (i+1) v' with
      | inl hrec =>
        obtain ⟨p, hp, hall, hnone⟩ := hrec
        left
        refine ⟨[Event.wait "poll" 10 false, Event.writeRow (writtenRow row v'),
          Event.wait "trialFixation" ((tin i)).fixDraw ((tin i)).escDuringFix] ++ p, ?_, ?_, ?_⟩
        · simp [runTrials, hstep, hp]
        · simp only [List.all_append, Bool.and_eq_true]
          exact ⟨by simp [isTrialEvent], hall⟩
        · simp [runTrials, hstep, hnone]
      | inr hrec =>
        obtain ⟨hall, v'', hsome⟩ := hrec
        right
        constructor
        · simp only [runTrials, hstep, List.all_append, Bool.and_eq_true]
          exact ⟨by simp [isTrialEvent], hall⟩
        · exact ⟨v'', by simp [runTrials, hstep, hsome]⟩

theorem runTrials_some_of_noesc (st : ℚ) (tin : Nat → TrialIn)
    (h : ∀ j, hasEscape ((tin j)).stimKeys = false) :
    ∀ (rows : List Row) (i : Nat) (v : Vars),
      ∃ v', (runTrials st tin rows i v).2 = some v'
  | [], i, v => ⟨v, rfl⟩
  | row :: rest, i, v => by
    cases hrv : runTrialVars row ((tin i)).stimKeys ((tin i)).trialTime st v with
    | none =>
      rw [runTrialVars_none_iff] at hrv
      rw [h i] at hrv
      exact absurd hrv (by simp)
    | some v' =>
      obtain ⟨v'', hv''⟩ := runTrials_some_of_noesc st tin h rest (i+1) v'
      exact ⟨v'', by simp [runTrials, trialStep_eq_some row (tin i) st v v' hrv, hv'']⟩

theorem runTrials_count (st : ℚ) (tin : Nat → TrialIn) :
    ∀ (rows : List Row) (i : Nat) (v : Vars),
      countWrites (runTrials st tin rows i v).1 = countCleanPolls (runTrials st tin rows i v).1
  | [], _, _ => rfl
  | row :: rest, i, v => by
    cases h : runTrialVars row ((tin i)).stimKeys ((tin i)).trialTime st v with
    | none =>
      simp [runTrials, trialStep_eq_none row (tin i) st v h, termTrace, countWrites,
        countCleanPolls, List.countP_cons, isRowWrite, isCleanPoll]
    | some v' =>
      have ih := runTrials_count st tin rest (i+1) v'
      simp only [countWrites, countCleanPolls] at ih ⊢
      simp only [runTrials, trialStep_eq_some row (tin i) st v v' h,
        List.countP_append, List.countP_cons, List.countP_nil]
      simp only [isRowWrite, isCleanPoll]
      have hb1 : ("trialFixation" == "poll") = false := by decide
      have hb2 : ("poll" == "poll") = true := by decide
      simp only [hb1, hb2, Bool.false_and, Bool.true_and, Bool.not_false]
      omega

theorem runTrials_rows_correct (st : ℚ) (tin : Nat → TrialIn) :
    ∀ (rows : List Row) (i : Nat) (v : Vars) (r : ResultRow),
      r ∈ writtenRows (runTrials st tin rows i v).1 → r.correct ≠ "" →
      (r.iscorrect = 1 ↔ r.answer = r.correct)
  | [], _, _, _ => by simp [runTrials, writtenRows]
  | row :: rest, i, v, r => by
    cases h : runTrialVars row ((tin i)).stimKeys ((tin i)).trialTime st v with
    | none =>
      simp [runTrials, trialStep_eq_none row (tin i) st v h, termTrace, writtenRows]
    | some v' =>
      intro hmem hc
      rw [writtenRows] at hmem
      simp only [runTrials, trialStep_eq_some row (tin i) st v v' h] at hmem
      rw [List.filterMap_append] at hmem
      rcases List.mem_append.mp hmem with hr | hr
      · have hr' : r ∈ [writtenRow row v'] := by
          simpa [List.filterMap_cons] using hr
        have hr'' : r = writtenRow row v' := by simpa using hr'
        subst hr''
        exact runTrialVars_some_correct row ((tin i)).stimKeys ((tin i)).trialTime st v v' h hc
      · exact runTrials_rows_correct st tin rest (i+1) v' r (by simpa [writtenRows] using hr) hc

theorem all_live_of_all_trial (l : List Event) (h : l.all isTrialEvent = true) :
    l.all isLiveEvent = true := by
  rw [List.all_eq_true] at h ⊢
  intro e he
  have := h e he
  cases e <;> simp_all [isTrialEvent, isLiveEvent]

theorem all_not_close_of_live (l : List Event) (h : l.all isLiveEvent = true) :
    l.all (fun e => !isCloseFile e) = true := by
  rw [List.all_eq_true] at h ⊢
  intro e he
  have := h e he
  cases e <;> simp_all [isLiveEvent, isCloseFile]

theorem not_mem_quit_true_of_live (l : List Event) (h : l.all isLiveEvent = true) :
    Event.quit true ∉ l := by
  intro hmem
  rw [List.all_eq_true] at h
  have := h (Event.quit true) hmem
  simp [isLiveEvent] at this

theorem not_mem_close_of_live (l : List Event) (h : l.all isLiveEvent = true) :
    Event.closeFile ∉ l := by
  intro hmem
  rw [List.all_eq_true] at h
  have := h Event.closeFile hmem
  simp [isLiveEvent] at this

theorem waitsTagged_trial_nil (tag : String) (h1 : tag ≠ "poll") (h2 : tag ≠ "trialFixation") :
    ∀ tr : List Event, tr.all isTrialEvent = true → waitsTagged tag tr = []
  | [] => by
    intro _
    rfl
  | e :: tr => by
    intro hall
    rw [List.all_cons, Bool.and_eq_true] at hall
    obtain ⟨he, htr⟩ := hall
    have ih := waitsTagged_trial_nil tag h1 h2 tr htr
    cases e with
    | wait t d esc =>
      simp only [isTrialEvent, Bool.or_eq_true, beq_iff_eq] at he
      have hne : ¬ (t = tag) := by
        rcases he with h | h <;> (subst h; intro hc; first | exact h1 hc.symm | exact h2 hc.symm)
      simpa [waitsTagged, List.filterMap_cons, hne] using ih
    | writeRow r =>
      simpa [waitsTagged, List.filterMap_cons] using ih
    | writeHeader => exact absurd he (by simp [isTrialEvent])
    | checkEsc b => exact absurd he (by simp [isTrialEvent])
    | closeWin => exact absurd he (by simp [isTrialEvent])
    | closeFile => exact absurd he (by simp [isTrialEvent])
    | quit b => exact absurd he (by simp [isTrialEvent])

theorem nwac_append : ∀ (p q : List Event), p.all (fun e => !isCloseFile e) = true →
    noWriteAfterClose q = true → noWriteAfterClose (p ++ q) = true
  | [], _ => by
    intro _ hq
    simpa using hq
  | e :: p, q => by
    intro hp hq
    rw [List.all_cons, Bool.and_eq_true] at hp
    obtain ⟨he, hp⟩ := hp
    have ih := nwac_append p q hp hq
    cases e with
    | closeFile => exact absurd he (by simp [isCloseFile])
    | writeHeader => exact ih
    | writeRow r => exact ih
    | wait t d esc => exact ih
    | checkEsc b => exact ih
    | closeWin => exact ih
    | quit b => exact ih


theorem runBlocks_cons_instresc (sin : SIn) (w x : String) (rest : List String)
    (b : Nat) (bt : ℚ) (v : Vars) (hi : sin.escDuringInstr b = true) :
    runBlocks sin w (x :: rest) b bt v =
      ([Event.wait "instruction" bt true, Event.checkEsc true] ++ termTrace, none) := by
  simp [runBlocks, hi]

theorem runBlocks_cons_trialesc (sin : SIn) (w x : String) (rest : List String)
    (b : Nat) (bt : ℚ) (v : Vars) (tr : List Event)
    (hi : sin.escDuringInstr b = false)
    (hrt : runTrials sin.startTime (sin.tIn b)
      (shuffle (bucket sin.data x) (sin.trialRand b)) 0 v = (tr, none)) :
    runBlocks sin w (x :: rest) b bt v =
      ([Event.wait "instruction" bt false, Event.checkEsc false] ++ tr, none) := by
  simp [runBlocks, hi, hrt]

theorem runBlocks_cons_last (sin : SIn) (w : String) (rest : List String)
    (b : Nat) (bt : ℚ) (v v' : Vars) (tr : List Event)
    (hi : sin.escDuringInstr b = false)
    (hrt : runTrials sin.startTime (sin.tIn b)
      (shuffle (bucket sin.data w) (sin.trialRand b)) 0 v = (tr, some v')) :
    runBlocks sin w (w :: rest) b bt v =
      ([Event.wait "instruction" bt false, Event.checkEsc false] ++ tr ++
        (runBlocks sin w rest (b+1) bt v').1,
        (runBlocks sin w rest (b+1) bt v').2) := by
  simp [runBlocks, hi, hrt]

theorem runBlocks_cons_brkesc (sin : SIn) (w x : String) (rest : List String)
    (b : Nat) (bt : ℚ) (v v' : Vars) (tr : List Event)
    (hi : sin.escDuringInstr b = false)
    (hrt : runTrials sin.startTime (sin.tIn b)
      (shuffle (bucket sin.data x) (sin.trialRand b)) 0 v = (tr, some v'))
    (hx : ¬ x = w) (hbrk : sin.escDuringBreak b = true) :
    runBlocks sin w (x :: rest) b bt v =
      ([Event.wait "instruction" bt false, Event.checkEsc false] ++ tr ++
        [Event.wait "break" (sin.breakDraw b) true, Event.checkEsc true] ++ termTrace,
        none) := by
  simp [runBlocks, hi, hrt, hx, hbrk]

theorem runBlocks_cons_brk (sin : SIn) (w x : String) (rest : List String)
    (b : Nat) (bt : ℚ) (v v' : Vars) (tr : List Event)
    (hi : sin.escDuringInstr b = false)
    (hrt : runTrials sin.startTime (sin.tIn b)
      (shuffle (bucket sin.data x) (sin.trialRand b)) 0 v = (tr, some v'))
    (hx : ¬ x = w) (hbrk : sin.escDuringBreak b = false) :
    runBlocks sin w (x :: rest) b bt v =
      ([Event.wait "instruction" bt false, Event.checkEsc false] ++ tr ++
        [Event.wait "break" (sin.breakDraw b) false, Event.checkEsc false] ++
        (runBlocks sin w rest (b+1) (sin.breakDraw b) v').1,
        (runBlocks sin w rest (b+1) (sin.breakDraw b) v').2) := by
  simp [runBlocks, hi, hrt, hx, hbrk]

theorem runBlocks_trace (sin : SIn) (w : String) :
    ∀ (conds : List String) (b : Nat) (bt : ℚ) (v : Vars),
      (∃ p, runBlocks sin w conds b bt v = (p ++ termTrace, none) ∧ p.all isLiveEvent = true) ∨
      (∃ tr v', runBlocks sin w conds b bt v = (tr, some v') ∧ tr.all isLiveEvent = true)
  | [], b, bt, v => Or.inr ⟨[], v, rfl, rfl⟩
  | x :: rest, b, bt, v => by
    by_cases hi : sin.escDuringInstr b = true
    · exact Or.inl ⟨[Event.wait "instruction" bt true, Event.checkEsc true],
        runBlocks_cons_instresc sin w x rest b bt v hi, by rfl⟩
    · rw [Bool.not_eq_true] at hi
      rcases hrt : runTrials sin.startTime (sin.tIn b)
          (shuffle (bucket sin.data x) (sin.trialRand b)) 0 v with ⟨tr, res⟩
      have htr := runTrials_trace sin.startTime (sin.tIn b)
        (shuffle (bucket sin.data x) (sin.trialRand b)) 0 v
      cases res with
      | none =>
        rcases htr with ⟨p, hp, hall, _⟩ | ⟨_, v', hv'⟩
        · rw [hrt] at hp
          simp only at hp
          left
          refine ⟨[Event.wait "instruction" bt false, Event.checkEsc false] ++ p, ?_, ?_⟩
          · rw [runBlocks_cons_trialesc sin w x rest b bt v tr hi hrt, hp, List.append_assoc]
          · rw [List.all_append, Bool.and_eq_true]
            exact ⟨by rfl, all_live_of_all_trial p hall⟩
        · rw [hrt] at hv'
          exact absurd hv' (by simp)
      | some v' =>
        rcases htr with ⟨p, _, _, hnone⟩ | ⟨hall, v'', hv''⟩
        · rw [hrt] at hnone
          exact absurd hnone (by simp)
        · rw [hrt] at hall hv''
          simp only at hall hv''
          have hvv : v'' = v' := by
            have h := hv''
            simp at h
            exact h.symm
          subst hvv
          have htrlive := all_live_of_all_trial tr hall
          by_cases hx : x = w
          · subst hx
            have heq := runBlocks_cons_last sin x rest b bt v v'' tr hi hrt
            rcases runBlocks_trace sin x rest (b+1) bt v'' with ⟨p2, hb, hall2⟩ |
              ⟨tr2, v2, hb, hall2⟩
            · left
              refine ⟨[Event.wait "instruction" bt false, Event.checkEsc false] ++ tr ++ p2,
                ?_, ?_⟩
              · rw [heq, hb]
                simp [List.append_assoc]
              · simp only [List.all_append, Bool.and_eq_true]
                exact ⟨⟨by rfl, htrlive⟩, hall2⟩
            · right
              refine ⟨[Event.wait "instruction" bt false, Event.checkEsc false] ++ tr ++ tr2,
                v2, ?_, ?_⟩
              · rw [heq, hb]
              · simp only [List.all_append, Bool.and_eq_true]
                exact ⟨⟨by rfl, htrlive⟩, hall2⟩
          · by_cases hbrk : sin.escDuringBreak b = true
            · left
              refine ⟨[Event.wait "instruction" bt false, Event.checkEsc false] ++ tr ++
                [Event.wait "break" (sin.breakDraw b) true, Event.checkEsc true], ?_, ?_⟩
              · rw [runBlocks_cons_brkesc sin w x rest b bt v v'' tr hi hrt hx hbrk]
              · simp only [List.all_append, Bool.and_eq_true]
                exact ⟨⟨by rfl, htrlive⟩, by rfl⟩
            · rw [Bool.not_eq_true] at hbrk
              have heq := runBlocks_cons_brk sin w x rest b bt v v'' tr hi hrt hx hbrk
              rcases runBlocks_trace sin w rest (b+1) (sin.breakDraw b) v'' with
                ⟨p2, hb, hall2⟩ | ⟨tr2, v2, hb, hall2⟩
              · left
                refine ⟨[Event.wait "instruction" bt false, Event.checkEsc false] ++ tr ++
                  [Event.wait "break" (sin.breakDraw b) false, Event.checkEsc false] ++ p2,
                  ?_, ?_⟩
                · rw [heq, hb]
                  simp [List.append_assoc]
                · simp only [List.all_append, Bool.and_eq_true]
                  exact ⟨⟨⟨by rfl, htrlive⟩, by rfl⟩, hall2⟩
              · right
                refine ⟨[Event.wait "instruction" bt false, Event.checkEsc false] ++ tr ++
                  [Event.wait "break" (sin.breakDraw b) false, Event.checkEsc false] ++ tr2,
                  v2, ?_, ?_⟩
                · rw [heq, hb]
                · simp only [List.all_append, Bool.and_eq_true]
                  exact ⟨⟨⟨by rfl, htrlive⟩, by rfl⟩, hall2⟩

theorem runBlocks_count (sin : SIn) (w : String) :
    ∀ (conds : List String) (b : Nat) (bt : ℚ) (v : Vars),
      countWrites (runBlocks sin w conds b bt v).1 =
        countCleanPolls (runBlocks sin w conds b bt v).1
  | [], _, _, _ => rfl
  | x :: rest, b, bt, v => by
    by_cases hi : sin.escDuringInstr b = true
    · rw [runBlocks_cons_instresc sin w x rest b bt v hi]
      rfl
    · rw [Bool.not_eq_true] at hi
      rcases hrt : runTrials sin.startTime (sin.tIn b)
          (shuffle (bucket sin.data x) (sin.trialRand b)) 0 v with ⟨tr, res⟩
      have hcount := runTrials_count sin.startTime (sin.tIn b)
        (shuffle (bucket sin.data x) (sin.trialRand b)) 0 v
      rw [hrt] at hcount
      simp only [countWrites, countCleanPolls] at hcount
      cases res with
      | none =>
        rw [runBlocks_cons_trialesc sin w x rest b bt v tr hi hrt]
        simp only [countWrites, countCleanPolls, List.countP_append]
        have p1 : List.countP isRowWrite
          [Event.wait "instruction" bt false, Event.checkEsc false] = 0 := rfl
        have p2 : List.countP isCleanPoll
          [Event.wait "instruction" bt false, Event.checkEsc false] = 0 := rfl
        rw [p1, p2]
        omega
      | some v' =>
        by_cases hx : x = w
        · subst hx
          have ih := runBlocks_count sin x rest (b+1) bt v'
          rw [runBlocks_cons_last sin x rest b bt v v' tr hi hrt]
          simp only [countWrites, countCleanPolls, List.countP_append] at ih ⊢
          have p1 : List.countP isRowWrite
            [Event.wait "instruction" bt false, Event.checkEsc false] = 0 := rfl
          have p2 : List.countP isCleanPoll
            [Event.wait "instruction" bt false, Event.checkEsc false] = 0 := rfl
          rw [p1, p2]
          omega
        · by_cases hbrk : sin.escDuringBreak b = true
          · rw [runBlocks_cons_brkesc sin w x rest b bt v v' tr hi hrt hx hbrk]
            simp only [countWrites, countCleanPolls, List.countP_append]
            have p1 : List.countP isRowWrite
              [Event.wait "instruction" bt false, Event.checkEsc false] = 0 := rfl
            have p2 : List.countP isCleanPoll
              [Event.wait "instruction" bt false, Event.checkEsc false] = 0 := rfl
            have q1 : List.countP isRowWrite
              [Event.wait "break" (sin.breakDraw b) true, Event.checkEsc true] = 0 := rfl
            have q2 : List.countP isCleanPoll
              [Event.wait "break" (sin.breakDraw b) true, Event.checkEsc true] = 0 := rfl
            have t1 : List.countP isRowWrite termTrace = 0 := rfl
            have t2 : List.countP isCleanPoll termTrace = 0 := rfl
            rw [p1, p2, q1, q2, t1, t2]
            omega
          · rw [Bool.not_eq_true] at hbrk
            have ih := runBlocks_count sin w rest (b+1) (sin.breakDraw b) v'
            rw [runBlocks_cons_brk sin w x rest b bt v v' tr hi hrt hx hbrk]
            simp only [countWrites, countCleanPolls, List.countP_append] at ih ⊢
            have p1 : List.countP isRowWrite
              [Event.wait "instruction" bt false, Event.checkEsc false] = 0 := rfl
            have p2 : List.countP isCleanPoll
              [Event.wait "instruction" bt false, Event.checkEsc false] = 0 := rfl
            have q1 : List.countP isRowWrite
              [Event.wait "break" (sin.breakDraw b) false, Event.checkEsc false] = 0 := rfl
            have q2 : List.countP isCleanPoll
              [Event.wait "break" (sin.breakDraw b) false, Event.checkEsc false] = 0 := rfl
            rw [p1, p2, q1, q2]
            omega

theorem runBlocks_rows_correct (sin : SIn) (w : String) :
    ∀ (conds : List String) (b : Nat) (bt : ℚ) (v : Vars) (r : ResultRow),
      r ∈ writtenRows (runBlocks sin w conds b bt v).1 → r.correct ≠ "" →
      (r.iscorrect = 1 ↔ r.answer = r.correct)
  | [], b, bt, v, r => by
    intro hmem hc
    simp [runBlocks, writtenRows] at hmem
  | x :: rest, b, bt, v, r => by
    by_cases hi : sin.escDuringInstr b = true
    · rw [runBlocks_cons_instresc sin w x rest b bt v hi]
      simp [writtenRows, termTrace]
    · rw [Bool.not_eq_true] at hi
      rcases hrt : runTrials sin.startTime (sin.tIn b)
          (shuffle (bucket sin.data x) (sin.trialRand b)) 0 v with ⟨tr, res⟩
      have hrows := runTrials_rows_correct sin.startTime (sin.tIn b)
        (shuffle (bucket sin.data x) (sin.trialRand b)) 0 v r
      rw [hrt] at hrows
      simp only at hrows
      cases res with
      | none =>
        rw [runBlocks_cons_trialesc sin w x rest b bt v tr hi hrt]
        intro hmem hc
        rw [writtenRows, List.filterMap_append] at hmem
        rcases List.mem_append.mp hmem with hm | hm
        · simp at hm
        · exact hrows (by simpa [writtenRows] using hm) hc
      | some v' =>
        intro hmem hc
        by_cases hx : x = w
        · subst hx
          rw [runBlocks_cons_last sin x rest b bt v v' tr hi hrt] at hmem
          rw [writtenRows, List.filterMap_append, List.filterMap_append] at hmem
          rcases List.mem_append.mp hmem with hm | hm
          · rcases List.mem_append.mp hm with hm2 | hm2
            · simp at hm2
            · exact hrows (by simpa [writtenRows] using hm2) hc
          · exact runBlocks_rows_correct sin x rest (b+1) bt v' r
              (by simpa [writtenRows] using hm) hc
        · by_cases hbrk : sin.escDuringBreak b = true
          · rw [runBlocks_cons_brkesc sin w x rest b bt v v' tr hi hrt hx hbrk] at hmem
            rw [writtenRows, List.filterMap_append, List.filterMap_append,
              List.filterMap_append] at hmem
            rcases List.mem_append.mp hmem with hm | hm
            · rcases List.mem_append.mp hm with hm2 | hm2
              · rcases List.mem_append.mp hm2 with hm3 | hm3
                · simp at hm3
                · exact hrows (by simpa [writtenRows] using hm3) hc
              · simp at hm2
            · simp [termTrace] at hm
          · rw [Bool.not_eq_true] at hbrk
            rw [runBlocks_cons_brk sin w x rest b bt v v' tr hi hrt hx hbrk] at hmem
            rw [writtenRows, List.filterMap_append, List.filterMap_append,
              List.filterMap_append] at hmem
            rcases List.mem_append.mp hmem with hm | hm
            · rcases List.mem_append.mp hm with hm2 | hm2
              · rcases List.mem_append.mp hm2 with hm3 | hm3
                · simp at hm3
                · exact hrows (by simpa [writtenRows] using hm3) hc
              · simp at hm2
            · exact runBlocks_rows_correct sin w rest (b+1) (sin.breakDraw b) v' r
                (by simpa [writtenRows] using hm) hc

theorem waitsTagged_append (tag : String) (a b : List Event) :
    waitsTagged tag (a ++ b) = waitsTagged tag a ++ waitsTagged tag b := by
  simp [waitsTagged, List.filterMap_append]

theorem waitsTagged_cons_wait (tag t : String) (d : ℚ) (e : Bool) (tr : List Event) :
    waitsTagged tag (Event.wait t d e :: tr) =
      if t = tag then d :: waitsTagged tag tr else waitsTagged tag tr := by
  by_cases h : t = tag <;> simp [waitsTagged, List.filterMap_cons, h]

theorem runBlocks_some_of_noesc (sin : SIn) (w : String)
    (h1 : ∀ b, sin.escDuringInstr b = false)
    (h2 : ∀ b, sin.escDuringBreak b = false)
    (h3 : ∀ b i, hasEscape ((sin.tIn b i)).stimKeys = false) :
    ∀ (conds : List String) (b : Nat) (bt : ℚ) (v : Vars),
      ∃ v', (runBlocks sin w conds b bt v).2 = some v'
  | [], b, bt, v => ⟨v, rfl⟩
  | x :: rest, b, bt, v => by
    rcases hrt : runTrials sin.startTime (sin.tIn b)
        (shuffle (bucket sin.data x) (sin.trialRand b)) 0 v with ⟨tr, res⟩
    obtain ⟨v', hv'⟩ := runTrials_some_of_noesc sin.startTime (sin.tIn b) (h3 b)
      (shuffle (bucket sin.data x) (sin.trialRand b)) 0 v
    rw [hrt] at hv'
    simp only at hv'
    subst hv'
    by_cases hx : x = w
    · subst hx
      obtain ⟨v2, hv2⟩ := runBlocks_some_of_noesc sin x h1 h2 h3 rest (b+1) bt v'
      refine ⟨v2, ?_⟩
      rw [runBlocks_cons_last sin x rest b bt v v' tr (h1 b) hrt]
      exact hv2
    · obtain ⟨v2, hv2⟩ := runBlocks_some_of_noesc sin w h1 h2 h3 rest (b+1) (sin.breakDraw b) v'
      refine ⟨v2, ?_⟩
      rw [runBlocks_cons_brk sin w x rest b bt v v' tr (h1 b) hrt hx (h2 b)]
      exact hv2

theorem runBlocks_waits (sin : SIn) (w : String)
    (h1 : ∀ b, sin.escDuringInstr b = false)
    (h2 : ∀ b, sin.escDuringBreak b = false)
    (h3 : ∀ b i, hasEscape ((sin.tIn b i)).stimKeys = false) :
    ∀ (zs : List String) (b : Nat) (bt : ℚ) (v : Vars), w ∉ zs →
      waitsTagged "instruction" (runBlocks sin w (zs ++ [w]) b bt v).1 =
        bt :: (List.range' b zs.length).map sin.breakDraw ∧
      waitsTagged "break" (runBlocks sin w (zs ++ [w]) b bt v).1 =
        (List.range' b zs.length).map sin.breakDraw
  | [], b, bt, v => by
    intro _
    rcases hrt : runTrials sin.startTime (sin.tIn b)
        (shuffle (bucket sin.data w) (sin.trialRand b)) 0 v with ⟨tr, res⟩
    obtain ⟨v', hv'⟩ := runTrials_some_of_noesc sin.startTime (sin.tIn b) (h3 b)
      (shuffle (bucket sin.data w) (sin.trialRand b)) 0 v
    rw [hrt] at hv'
    simp only at hv'
    subst hv'
    have htr := runTrials_trace sin.startTime (sin.tIn b)
      (shuffle (bucket sin.data w) (sin.trialRand b)) 0 v
    rw [hrt] at htr
    rcases htr with ⟨p, hp, hall, hnone⟩ | ⟨hall, v2, _⟩
    · simp at hnone
    · simp only at hall
      rw [show ([] : List String) ++ [w] = [w] from rfl,
        runBlocks_cons_last sin w [] b bt v v' tr (h1 b) hrt]
      have hbase : (runBlocks sin w [] (b+1) bt v').1 = [] := rfl
      rw [hbase]
      have hi1 := waitsTagged_trial_nil "instruction" (by decide) (by decide) tr hall
      have hb1 := waitsTagged_trial_nil "break" (by decide) (by decide) tr hall
      constructor
      · rw [waitsTagged_append, waitsTagged_append, hi1]
        simp [waitsTagged, List.filterMap_cons]
      · rw [waitsTagged_append, waitsTagged_append, hb1]
        simp [waitsTagged, List.filterMap_cons]
  | z :: zs, b, bt, v => by
    intro hw
    rw [List.mem_cons, not_or] at hw
    obtain ⟨hz, hzs⟩ := hw
    rcases hrt : runTrials sin.startTime (sin.tIn b)
        (shuffle (bucket sin.data z) (sin.trialRand b)) 0 v with ⟨tr, res⟩
    obtain ⟨v', hv'⟩ := runTrials_some_of_noesc sin.startTime (sin.tIn b) (h3 b)
      (shuffle (bucket sin.data z) (sin.trialRand b)) 0 v
    rw [hrt] at hv'
    simp only at hv'
    subst hv'
    have htr := runTrials_trace sin.startTime (sin.tIn b)
      (shuffle (bucket sin.data z) (sin.trialRand b)) 0 v
    rw [hrt] at htr
    rcases htr with ⟨p, hp, hall, hnone⟩ | ⟨hall, v2, _⟩
    · simp at hnone
    · simp only at hall
      have hzw : ¬ z = w := fun hc => hz hc.symm
      rw [List.cons_append,
        runBlocks_cons_brk sin w z (zs ++ [w]) b bt v v' tr (h1 b) hrt hzw (h2 b)]
      obtain ⟨ih1, ih2⟩ := runBlocks_waits sin w h1 h2 h3 zs (b+1) (sin.breakDraw b) v' hzs
      have hi1 := waitsTagged_trial_nil "instruction" (by decide) (by decide) tr hall
      have hb1 := waitsTagged_trial_nil "break" (by decide) (by decide) tr hall
      constructor
      · rw [waitsTagged_append, waitsTagged_append, waitsTagged_append, hi1, ih1]
        simp [waitsTagged, List.filterMap_cons, List.range']
      · rw [waitsTagged_append, waitsTagged_append, waitsTagged_append, hb1, ih2]
        simp [waitsTagged, List.filterMap_cons, List.range']

theorem writtenRows_append (a b : List Event) :
    writtenRows (a ++ b) = writtenRows a ++ writtenRows b := by
  simp [writtenRows, List.filterMap_append]

theorem runSession_startesc (sin : SIn) (h : sin.startEsc = true) :
    runSession sin =
      [Event.writeHeader, Event.wait "startKeys" 0 true] ++ termTrace := by
  simp [runSession, h]

theorem runSession_fix0esc (sin : SIn) (h : sin.startEsc = false)
    (h2 : sin.escDuringFix0 = true) :
    runSession sin =
      [Event.writeHeader, Event.wait "startKeys" 0 false,
        Event.wait "fixation0" 5 true, Event.checkEsc true] ++ termTrace := by
  simp [runSession, h, h2]

theorem runSession_blocks_none (sin : SIn) (h : sin.startEsc = false)
    (h2 : sin.escDuringFix0 = false) (tr : List Event)
    (hb : runBlocks sin ((shuffle baseConditions sin.condRand).getD 5 "")
      (shuffle baseConditions sin.condRand) 0 5 sin.v0 = (tr, none)) :
    runSession sin =
      [Event.writeHeader, Event.wait "startKeys" 0 false,
        Event.wait "fixation0" 5 false, Event.checkEsc false] ++ tr := by
  simp only [List.getD_eq_getElem?_getD] at hb
  simp [runSession, h, h2, hb]

theorem runSession_blocks_some (sin : SIn) (h : sin.startEsc = false)
    (h2 : sin.escDuringFix0 = false) (tr : List Event) (v' : Vars)
    (hb : runBlocks sin ((shuffle baseConditions sin.condRand).getD 5 "")
      (shuffle baseConditions sin.condRand) 0 5 sin.v0 = (tr, some v')) :
    runSession sin =
      [Event.writeHeader, Event.wait "startKeys" 0 false,
        Event.wait "fixation0" 5 false, Event.checkEsc false] ++ tr ++
      [Event.wait "endScreen" 5 sin.escDuringEnd,
        Event.closeFile, Event.closeWin, Event.quit false] := by
  simp only [List.getD_eq_getElem?_getD] at hb
  simp [runSession, h, h2, hb]

/-- C7 (confirmed): in every session, once the results file is closed —
whether through the escape-triggered `terminate()` or through the normal
exit — no result row is ever appended afterwards, and the file close event
is always present, so output is flushed up to the last completed write. -/
theorem c7_escape_halts_output (sin : SIn) :
    noWriteAfterClose (runSession sin) = true ∧ Event.closeFile ∈ runSession sin := by
  by_cases h : sin.startEsc = true
  · rw [runSession_startesc sin h]
    exact ⟨rfl, by simp [termTrace]⟩
  · rw [Bool.not_eq_true] at h
    by_cases h2 : sin.escDuringFix0 = true
    · rw [runSession_fix0esc sin h h2]
      exact ⟨rfl, by simp [termTrace]⟩
    · rw [Bool.not_eq_true] at h2
      rcases runBlocks_trace sin ((shuffle baseConditions sin.condRand).getD 5 "")
          (shuffle baseConditions sin.condRand) 0 5 sin.v0 with
        ⟨p, hb, hall⟩ | ⟨tr, v', hb, hall⟩
      · rw [runSession_blocks_none sin h h2 (p ++ termTrace) hb]
        constructor
        · rw [show [Event.writeHeader, Event.wait "startKeys" 0 false,
            Event.wait "fixation0" 5 false, Event.checkEsc false] ++ (p ++ termTrace) =
            ([Event.writeHeader, Event.wait "startKeys" 0 false,
              Event.wait "fixation0" 5 false, Event.checkEsc false] ++ p) ++ termTrace from
            by rw [List.append_assoc]]
          refine nwac_append _ _ ?_ rfl
          rw [List.all_append, Bool.and_eq_true]
          exact ⟨by rfl, all_not_close_of_live p hall⟩
        · simp [termTrace]
      · rw [runSession_blocks_some sin h h2 tr v' hb]
        constructor
        · refine nwac_append _ _ ?_ rfl
          rw [List.all_append, Bool.and_eq_true]
          exact ⟨by rfl, all_not_close_of_live tr hall⟩
        · simp

/-- C8 (amended): escape is observed and triggers termination at the
checkpoints the code actually has — the start-key wait (whose poll returns
escape directly), the initial fixation pause, a block-instruction pause, a
trial's timed keyboard poll, and a between-block break — but NOT after
every blocking wait: an escape pressed during the per-trial fixation pause
or during the end screen is never checked, so a session whose only escape
presses happen there never terminates via `terminate()`. -/
theorem c8_checkpoint_coverage :
    (∀ sin : SIn, sin.startEsc = false → sin.escDuringFix0 = false →
      (∀ b, sin.escDuringInstr b = false) → (∀ b, sin.escDuringBreak b = false) →
      (∀ b i, hasEscape ((sin.tIn b i)).stimKeys = false) →
      Event.quit true ∉ runSession sin) ∧
    (∀ sin : SIn, sin.startEsc = true → Event.quit true ∈ runSession sin) ∧
    (∀ sin : SIn, sin.startEsc = false → sin.escDuringFix0 = true →
      Event.quit true ∈ runSession sin) ∧
    (∀ sin : SIn, sin.startEsc = false → sin.escDuringFix0 = false →
      sin.escDuringInstr 0 = true → Event.quit true ∈ runSession sin) ∧
    (∀ sin : SIn, sin.startEsc = false → sin.escDuringFix0 = false →
      sin.escDuringInstr 0 = false →
      hasEscape ((sin.tIn 0 0)).stimKeys = true →
      bucket sin.data ((shuffle baseConditions sin.condRand).getD 0 "") ≠ [] →
      Event.quit true ∈ runSession sin) ∧
    (∀ sin : SIn, sin.startEsc = false → sin.escDuringFix0 = false →
      sin.escDuringInstr 0 = false →
      (∀ i, hasEscape ((sin.tIn 0 i)).stimKeys = false) →
      sin.escDuringBreak 0 = true →
      Event.quit true ∈ runSession sin) := by
  refine ⟨?_, ?_, ?_, ?_, ?_, ?_⟩
  · intro sin h1 h2 h3 h4 h5
    rcases runBlocks_trace sin ((shuffle baseConditions sin.condRand).getD 5 "")
        (shuffle baseConditions sin.condRand) 0 5 sin.v0 with
      ⟨p, hbe, _⟩ | ⟨tr2, v2, hbe, hall⟩
    · obtain ⟨v', hv⟩ := runBlocks_some_of_noesc sin
        ((shuffle baseConditions sin.condRand).getD 5 "") h3 h4 h5
        (shuffle baseConditions sin.condRand) 0 5 sin.v0
      rw [hbe] at hv
      simp at hv
    · rw [runSession_blocks_some sin h1 h2 tr2 v2 hbe]
      have hnq := not_mem_quit_true_of_live tr2 hall
      simp [List.mem_append, List.mem_cons, hnq]
  · intro sin h1
    rw [runSession_startesc sin h1]
    simp [termTrace]
  · intro sin h1 h2
    rw [runSession_fix0esc sin h1 h2]
    simp [termTrace]
  · intro sin h1 h2 hinstr
    have hlen : (shuffle baseConditions sin.condRand).length = 6 := by
      rw [shuffle_length]
      rfl
    cases hc : shuffle baseConditions sin.condRand with
    | nil =>
      rw [hc] at hlen
      simp at hlen
    | cons x rest =>
      have hb : runBlocks sin ((shuffle baseConditions sin.condRand).getD 5 "")
          (shuffle baseConditions sin.condRand) 0 5 sin.v0 =
          ([Event.wait "instruction" 5 true, Event.checkEsc true] ++ termTrace, none) := by
        rw [hc]
        exact runBlocks_cons_instresc sin ((x :: rest).getD 5 "") x rest 0 5 sin.v0 hinstr
      rw [runSession_blocks_none sin h1 h2 _ hb]
      simp [termTrace]
  · intro sin h1 h2 hinstr hesc hbne
    have hlen : (shuffle baseConditions sin.condRand).length = 6 := by
      rw [shuffle_length]
      rfl
    cases hc : shuffle baseConditions sin.condRand with
    | nil =>
      rw [hc] at hlen
      simp at hlen
    | cons x rest =>
      rw [hc] at hbne
      have hbx : bucket sin.data x ≠ [] := by simpa using hbne
      have hrlen : (shuffle (bucket sin.data x) (sin.trialRand 0)).length ≠ 0 := by
        rw [shuffle_length]
        exact fun hz => hbx (List.length_eq_zero.mp hz)
      cases hr : shuffle (bucket sin.data x) (sin.trialRand 0) with
      | nil =>
        rw [hr] at hrlen
        simp at hrlen
      | cons row rrest =>
        have hnone : runTrialVars row ((sin.tIn 0 0)).stimKeys ((sin.tIn 0 0)).trialTime
            sin.startTime sin.v0 = none :=
          (runTrialVars_none_iff row ((sin.tIn 0 0)).stimKeys ((sin.tIn 0 0)).trialTime
            sin.startTime sin.v0).mpr hesc
        have hrt : runTrials sin.startTime (sin.tIn 0)
            (shuffle (bucket sin.data x) (sin.trialRand 0)) 0 sin.v0 =
            (Event.wait "poll" 10 true :: termTrace, none) := by
          rw [hr]
          simp [runTrials, trialStep_eq_none row (sin.tIn 0 0) sin.startTime sin.v0 hnone]
        have hb : runBlocks sin ((shuffle baseConditions sin.condRand).getD 5 "")
            (shuffle baseConditions sin.condRand) 0 5 sin.v0 =
            ([Event.wait "instruction" 5 false, Event.checkEsc false] ++
              (Event.wait "poll" 10 true :: termTrace), none) := by
          rw [hc]
          exact runBlocks_cons_trialesc sin ((x :: rest).getD 5 "") x rest 0 5 sin.v0 _
            hinstr hrt
        rw [runSession_blocks_none sin h1 h2 _ hb]
        simp [termTrace]
  · intro sin h1 h2 hinstr hnoesc hbrk
    have hnd : (shuffle baseConditions sin.condRand).Nodup :=
      shuffle_nodup baseConditions sin.condRand (by decide)
    have hlen : (shuffle baseConditions sin.condRand).length = 6 := by
      rw [shuffle_length]
      rfl
    cases hc : shuffle baseConditions sin.condRand with
    | nil =>
      rw [hc] at hlen
      simp at hlen
    | cons x rest =>
      rw [hc] at hnd hlen
      have hrl : rest.length = 5 := by simpa using hlen
      have h4 : 4 < rest.length := by omega
      have hg : rest.getD 4 "" = rest[4] := by
        rw [List.getD_eq_getElem?_getD, List.getElem?_eq_getElem h4]
        rfl
      have hmem : rest.getD 4 "" ∈ rest := by
        rw [hg]
        exact List.getElem_mem h4
      have hxnotin : x ∉ rest := (List.nodup_cons.mp hnd).1
      have hxw : ¬ x = (x :: rest).getD 5 "" := by
        intro hc2
        rw [show (x :: rest).getD 5 "" = rest.getD 4 "" from rfl] at hc2
        exact hxnotin (hc2 ▸ hmem)
      obtain ⟨v', hv'⟩ := runTrials_some_of_noesc sin.startTime (sin.tIn 0) hnoesc
        (shuffle (bucket sin.data x) (sin.trialRand 0)) 0 sin.v0
      rcases hrt : runTrials sin.startTime (sin.tIn 0)
          (shuffle (bucket sin.data x) (sin.trialRand 0)) 0 sin.v0 with ⟨tr, res⟩
      rw [hrt] at hv'
      simp only at hv'
      subst hv'
      have hb : runBlocks sin ((shuffle baseConditions sin.condRand).getD 5 "")
          (shuffle baseConditions sin.condRand) 0 5 sin.v0 =
          ([Event.wait "instruction" 5 false, Event.checkEsc false] ++ tr ++
            [Event.wait "break" (sin.breakDraw 0) true, Event.checkEsc true] ++ termTrace,
            none) := by
        rw [hc]
        exact runBlocks_cons_brkesc sin ((x :: rest).getD 5 "") x rest 0 5 sin.v0 v' tr
          hinstr hrt hxw hbrk
      rw [runSession_blocks_none sin h1 h2 _ hb]
      simp [termTrace]

/-- C10 (confirmed): in a session that runs to completion, the first
block's instruction screen is shown for exactly 5 time units, and every
later block's instruction screen is shown for exactly the duration drawn
for the preceding between-block break, because both reuse the same
`brief_time` variable: the instruction durations are `5` followed by the
five break draws, which are exactly the break durations. -/
theorem c10_brief_time_reuse (sin : SIn)
    (h1 : sin.startEsc = false) (h2 : sin.escDuringFix0 = false)
    (h3 : ∀ b, sin.escDuringInstr b = false) (h4 : ∀ b, sin.escDuringBreak b = false)
    (h5 : ∀ b i, hasEscape ((sin.tIn b i)).stimKeys = false) :
    waitsTagged "instruction" (runSession sin) =
      5 :: (List.range' 0 5).map sin.breakDraw ∧
    waitsTagged "break" (runSession sin) = (List.range' 0 5).map sin.breakDraw := by
  have hnd : (shuffle baseConditions sin.condRand).Nodup :=
    shuffle_nodup baseConditions sin.condRand (by decide)
  have hlen : (shuffle baseConditions sin.condRand).length = 6 := by
    rw [shuffle_length]
    rfl
  have hne : shuffle baseConditions sin.condRand ≠ [] := by
    intro hc
    rw [hc] at hlen
    simp at hlen
  have hback : (shuffle baseConditions sin.condRand).dropLast ++
      [(shuffle baseConditions sin.condRand).getLast hne] =
      shuffle baseConditions sin.condRand :=
    List.dropLast_append_getLast hne
  have hwnotin : (shuffle baseConditions sin.condRand).getLast hne ∉
      (shuffle baseConditions sin.condRand).dropLast := by
    intro hmem
    rw [← hback] at hnd
    exact (List.nodup_append.mp hnd).2.2 hmem (by simp)
  have hzlen : (shuffle baseConditions sin.condRand).dropLast.length = 5 := by
    rw [List.length_dropLast, hlen]
  have hgetD : (shuffle baseConditions sin.condRand).getD 5 "" =
      (shuffle baseConditions sin.condRand).getLast hne := by
    have h5lt : 5 < (shuffle baseConditions sin.condRand).length := by omega
    rw [List.getD_eq_getElem?_getD, List.getElem?_eq_getElem h5lt, List.getLast_eq_getElem]
    simp only [hlen]
    rfl
  obtain ⟨hwi, hwb⟩ := runBlocks_waits sin
    ((shuffle baseConditions sin.condRand).getLast hne) h3 h4 h5
    (shuffle baseConditions sin.condRand).dropLast 0 5 sin.v0 hwnotin
  rw [hback, hzlen, ← hgetD] at hwi hwb
  rcases hbp : runBlocks sin ((shuffle baseConditions sin.condRand).getD 5 "")
      (shuffle baseConditions sin.condRand) 0 5 sin.v0 with ⟨tr, res⟩
  obtain ⟨v', hv⟩ := runBlocks_some_of_noesc sin
    ((shuffle baseConditions sin.condRand).getD 5 "") h3 h4 h5
    (shuffle baseConditions sin.condRand) 0 5 sin.v0
  rw [hbp] at hv
  simp only at hv
  subst hv
  rw [hbp] at hwi hwb
  simp only at hwi hwb
  rw [runSession_blocks_some sin h1 h2 tr v' hbp]
  have e1 : waitsTagged "instruction"
      [Event.writeHeader, Event.wait "startKeys" 0 false,
        Event.wait "fixation0" 5 false, Event.checkEsc false] = [] := rfl
  have e2 : waitsTagged "instruction"
      [Event.wait "endScreen" 5 sin.escDuringEnd,
        Event.closeFile, Event.closeWin, Event.quit false] = [] := rfl
  have e3 : waitsTagged "break"
      [Event.writeHeader, Event.wait "startKeys" 0 false,
        Event.wait "fixation0" 5 false, Event.checkEsc false] = [] := rfl
  have e4 : waitsTagged "break"
      [Event.wait "endScreen" 5 sin.escDuringEnd,
        Event.closeFile, Event.closeWin, Event.quit false] = [] := rfl
  constructor
  · rw [waitsTagged_append, waitsTagged_append, e1, e2, hwi]
    simp
  · rw [waitsTagged_append, waitsTagged_append, e3, e4, hwb]
    simp

/-- C2 (amended): every session writes exactly one result row per trial
that is reached and not escaped (the writes are in bijection with the
non-escape polls), and every written row whose `Correct Answer` field is
nonempty has `IsCorrect` 1 exactly when its `Answer` equals its
`Correct Answer`.  (When the `Correct Answer` field is empty and the trial
times out, the row records `IsCorrect` 0 although the empty `Answer` equals
the empty `Correct Answer`.) -/
theorem c2_one_row_per_trial (sin : SIn) :
    countWrites (runSession sin) = countCleanPolls (runSession sin) ∧
    ∀ r ∈ writtenRows (runSession sin), r.correct ≠ "" →
      (r.iscorrect = 1 ↔ r.answer = r.correct) := by
  by_cases h : sin.startEsc = true
  · rw [runSession_startesc sin h]
    exact ⟨rfl, by simp [writtenRows, termTrace]⟩
  · rw [Bool.not_eq_true] at h
    by_cases h2 : sin.escDuringFix0 = true
    · rw [runSession_fix0esc sin h h2]
      exact ⟨rfl, by simp [writtenRows, termTrace]⟩
    · rw [Bool.not_eq_true] at h2
      have hcnt := runBlocks_count sin ((shuffle baseConditions sin.condRand).getD 5 "")
        (shuffle baseConditions sin.condRand) 0 5 sin.v0
      have hrows := runBlocks_rows_correct sin
        ((shuffle baseConditions sin.condRand).getD 5 "")
        (shuffle baseConditions sin.condRand) 0 5 sin.v0
      rcases hbp : runBlocks sin ((shuffle baseConditions sin.condRand).getD 5 "")
          (shuffle baseConditions sin.condRand) 0 5 sin.v0 with ⟨tr, res⟩
      rw [hbp] at hcnt hrows
      simp only [countWrites, countCleanPolls] at hcnt
      simp only at hrows
      cases res with
      | none =>
        rw [runSession_blocks_none sin h h2 tr hbp]
        constructor
        · simp only [countWrites, countCleanPolls, List.countP_append]
          have p1 : List.countP isRowWrite
            [Event.writeHeader, Event.wait "startKeys" 0 false,
              Event.wait "fixation0" 5 false, Event.checkEsc false] = 0 := rfl
          have p2 : List.countP isCleanPoll
            [Event.writeHeader, Event.wait "startKeys" 0 false,
              Event.wait "fixation0" 5 false, Event.checkEsc false] = 0 := rfl
          rw [p1, p2]
          omega
        · intro r hmem hc
          rw [writtenRows_append] at hmem
          rcases List.mem_append.mp hmem with hm | hm
          · simp [writtenRows] at hm
          · exact hrows r hm hc
      | some v' =>
        rw [runSession_blocks_some sin h h2 tr v' hbp]
        constructor
        · simp only [countWrites, countCleanPolls, List.countP_append]
          have p1 : List.countP isRowWrite
            [Event.writeHeader, Event.wait "startKeys" 0 false,
              Event.wait "fixation0" 5 false, Event.checkEsc false] = 0 := rfl
          have p2 : List.countP isCleanPoll
            [Event.writeHeader, Event.wait "startKeys" 0 false,
              Event.wait "fixation0" 5 false, Event.checkEsc false] = 0 := rfl
          have q1 : List.countP isRowWrite
            [Event.wait "endScreen" 5 sin.escDuringEnd,
              Event.closeFile, Event.closeWin, Event.quit false] = 0 := rfl
          have q2 : List.countP isCleanPoll
            [Event.wait "endScreen" 5 sin.escDuringEnd,
              Event.closeFile, Event.closeWin, Event.quit false] = 0 := rfl
          rw [p1, p2, q1, q2]
          omega
        · intro r hmem hc
          rw [writtenRows_append, writtenRows_append] at hmem
          rcases List.mem_append.mp hmem with hm | hm
          · rcases List.mem_append.mp hm with hm2 | hm2
            · simp [writtenRows] at hm2
            · exact hrows r hm2 hc
          · simp [writtenRows] at hm

/-- C6 (confirmed): randomization is a permutation: shuffling a block's
trial rows leaves their multiset unchanged (only the order changes), and
the shuffled condition list is a permutation of the six fixed labels. -/
theorem c6_shuffle_is_permutation :
    (∀ (l : List Row) (rand : Nat → Nat),
      ((shuffle l rand : List Row) : Multiset Row) = (l : Multiset Row)) ∧
    (∀ rand : Nat → Nat,
      ((shuffle baseConditions rand : List String) : Multiset String) =
        (baseConditions : Multiset String)) :=
  ⟨fun l rand => shuffle_multiset l rand, fun rand => shuffle_multiset baseConditions rand⟩

/-- C5 (amended): a loaded row whose condition field is one of the six
labels appears in the bucket of exactly that label and in no other bucket;
a row whose condition field is not one of the six labels appears in no
bucket of the dictionary at all. -/
theorem c5_bucket_membership (data : List Row) (r : Row) (hmem : r ∈ data) :
    (r.cond ∈ baseConditions →
      r ∈ bucket data r.cond ∧ ∀ x ∈ baseConditions, r ∈ bucket data x → x = r.cond) ∧
    (r.cond ∉ baseConditions → ∀ x ∈ baseConditions, r ∉ bucket data x) := by
  constructor
  · intro _
    constructor
    · rw [bucket, List.mem_filter]
      exact ⟨hmem, by simp⟩
    · intro x _ hrx
      rw [bucket, List.mem_filter] at hrx
      have hcx : r.cond = x := by simpa using hrx.2
      exact hcx.symm
  · intro h x hx hrx
    rw [bucket, List.mem_filter] at hrx
    have hcx : r.cond = x := by simpa using hrx.2
    exact h (hcx ▸ hx)

/-- Witness for `c5_bucket_membership` at a concrete one-row table. -/
theorem c5_bucket_membership_witness :
    rowCat ∈ bucket [rowCat] rowCat.cond ∧
      ∀ x ∈ baseConditions, rowCat ∈ bucket [rowCat] x → x = rowCat.cond :=
  (c5_bucket_membership [rowCat] rowCat (by decide)).1 (by decide)

/-- Concrete row whose condition field is not one of the six labels. -/
def rowWeird : Row :=
  { cond := "weird", target := "t", w1 := "a", w2 := "b", w3 := "c", correct := "1" }

/-- Counterexample to C5 as stated: a loaded row whose first field matches
no condition label lands in zero buckets, not exactly one. -/
theorem c5_unbucketed_cex :
    (baseConditions.filter (fun x => decide (rowWeird ∈ bucket [rowWeird] x))).length = 0 := by
  decide

/-- Possible outcome of running the straight-line dialog-cancel branch:
a clean `core.quit()`, or an uncaught NameError on an unbound name. -/
inductive ExitOutcome where
  | cleanQuit
  | nameError (n : String)
deriving DecidableEq

/-- Lines 38-42: the dialog-cancel branch runs `print(...)`, then
`f.close()`, then `core.quit()`.  Evaluating `f.close()` looks the name
`f` up among the bound global names; if it is unbound the branch raises a
NameError there and `core.quit()` is never reached, otherwise it closes
the handle and quits cleanly. -/
def cancelBranch (bound : List String) : ExitOutcome :=
  if "f" ∈ bound then ExitOutcome.cleanQuit else ExitOutcome.nameError "f"

/-- Global names bound when line 39's cancel test runs: the four imports
(lines 1-4), `kb` (line 7), the two functions (lines 10 and 17),
`exp_data` (line 23), and `dlg` (line 33).  The results file `f` is first
bound at line 57, after this branch; the `f` bound by the `with` block at
line 49 also comes later. -/
def namesBoundAtDialog : List String :=
  ["visual", "core", "gui", "datetime", "random", "keyboard", "kb",
    "terminate", "check_for_escape", "exp_data", "dlg"]

/-- C1 (code bug): cancelling the startup dialog does not exit cleanly and
the branch does attempt an operation on the not-yet-opened results file:
its `f.close()` call runs before `f` is ever bound, so the branch raises a
NameError on `f` and never reaches `core.quit()`. -/
theorem c1_cancel_branch_name_error :
    cancelBranch namesBoundAtDialog = ExitOutcome.nameError "f" ∧
    cancelBranch namesBoundAtDialog ≠ ExitOutcome.cleanQuit := by
  constructor <;> decide

/-- Trial input: timeout (no key within the 10-second window). -/
def tinNone : TrialIn :=
  { stimKeys := none, trialTime := 0, fixDraw := 1, escDuringFix := false }

/-- Trial input: the key `1` pressed with reaction time 2. -/
def tinKey1 : TrialIn :=
  { stimKeys := some [{ name := "1", rt := 2 }], trialTime := 0, fixDraw := 1,
    escDuringFix := false }

/-- Trial input: the key `1` pressed, and escape pressed during the trial
fixation pause that follows the write. -/
def tinKeyFix : TrialIn :=
  { stimKeys := some [{ name := "1", rt := 2 }], trialTime := 0, fixDraw := 1,
    escDuringFix := true }

/-- Trial input: the escape key pressed during the poll. -/
def tinEsc : TrialIn :=
  { stimKeys := some [{ name := "escape", rt := 1 }], trialTime := 0, fixDraw := 1,
    escDuringFix := false }

/-- Base concrete session: no data, identity-like randomness, no escape
anywhere, with deliberately dirty initial trial variables `v0`. -/
def sinBase : SIn :=
  { data := []
    condRand := fun i => i
    trialRand := fun _ i => i
    startTime := 0
    startEsc := false
    escDuringFix0 := false
    escDuringInstr := fun _ => false
    tIn := fun _ _ => tinNone
    breakDraw := fun _ => 4
    escDuringBreak := fun _ => false
    escDuringEnd := false
    v0 := { answer := "z", rt := RTVal.val 9, iscorrect := 7, time := 0 } }

/-- Row whose sixth field (correct answer) is the empty string, as loaded
from a CSV line with a trailing comma. -/
def rowEmpty : Row :=
  { cond := "high", target := "t", w1 := "a", w2 := "b", w3 := "c", correct := "" }

/-- Session with a single trial whose correct-answer field is empty and
whose poll times out. -/
def sinC2 : SIn := { sinBase with data := [rowEmpty] }

/-- Counterexample to C2 as stated: in `sinC2`, the single written row has
`Answer` equal to `Correct Answer` (both empty) yet `IsCorrect` is 0, so
`IsCorrect` is not 1 iff `Answer` equals `Correct Answer`. -/
theorem c2_empty_correct_cex :
    ¬ (∀ r ∈ writtenRows (runSession sinC2), (r.iscorrect = 1 ↔ r.answer = r.correct)) := by
  decide

/-- Second row of the `high` block, answered after `rowCat`. -/
def rowCat2 : Row :=
  { cond := "high", target := "sun", w1 := "moon", w2 := "star", w3 := "sky", correct := "2" }

/-- Session in which an answered trial (reaction time 2) is followed by a
timed-out trial in the same block. -/
def sinC4 : SIn :=
  { sinBase with
    data := [rowCat, rowCat2]
    tIn := fun b i => if b = 0 ∧ i = 0 then tinKey1 else tinNone }

/-- Counterexample to C4 as stated: in `sinC4` the answered trial records
reaction time 2 and the following timed-out trial records the unavailable
marker, not the stale value 2. -/
theorem c4_no_stale_rt_cex :
    (writtenRows (runSession sinC4)).map ResultRow.rt = [RTVal.val 2, RTVal.NA] ∧
    RTVal.NA ≠ RTVal.val 2 := by
  constructor <;> decide

/-- Session whose only escape presses happen during the per-trial fixation
pause and during the end screen. -/
def sinFix : SIn :=
  { sinBase with data := [rowCat], tIn := fun _ _ => tinKeyFix, escDuringEnd := true }

/-- Counterexample to C8 as stated: in `sinFix` escape is pressed during
the per-trial fixation pause and during the end-screen wait, yet the
session never terminates via `terminate()` and quits normally. -/
theorem c8_fixation_escape_ignored_cex :
    Event.wait "trialFixation" 1 true ∈ runSession sinFix ∧
    Event.wait "endScreen" 5 true ∈ runSession sinFix ∧
    Event.quit true ∉ runSession sinFix ∧
    Event.quit false ∈ runSession sinFix := by
  refine ⟨?_, ?_, ?_, ?_⟩ <;> decide

/-- Session cancelled by escape at the start-key wait. -/
def sinStartEsc : SIn := { sinBase with startEsc := true }

/-- Session cancelled by escape during the initial fixation. -/
def sinFix0Esc : SIn := { sinBase with escDuringFix0 := true }

/-- Session cancelled by escape during the first block instruction. -/
def sinInstrEsc : SIn := { sinBase with escDuringInstr := fun _ => true }

/-- Session cancelled by escape during the first trial's poll. -/
def sinPollEsc : SIn := { sinBase with data := [rowCat], tIn := fun _ _ => tinEsc }

/-- Session cancelled by escape during the first between-block break. -/
def sinBreakEsc : SIn := { sinBase with escDuringBreak := fun _ => true }

/-- Witness for `c8_checkpoint_coverage` at concrete sessions: unchecked
escapes never terminate, and each checked checkpoint terminates. -/
theorem c8_checkpoint_coverage_witness :
    Event.quit true ∉ runSession sinFix ∧
    Event.quit true ∈ runSession sinStartEsc ∧
    Event.quit true ∈ runSession sinFix0Esc ∧
    Event.quit true ∈ runSession sinInstrEsc ∧
    Event.quit true ∈ runSession sinPollEsc ∧
    Event.quit true ∈ runSession sinBreakEsc :=
  ⟨c8_checkpoint_coverage.1 sinFix rfl rfl (fun _ => rfl) (fun _ => rfl)
      (fun _ _ => rfl),
    c8_checkpoint_coverage.2.1 sinStartEsc rfl,
    c8_checkpoint_coverage.2.2.1 sinFix0Esc rfl rfl,
    c8_checkpoint_coverage.2.2.2.1 sinInstrEsc rfl rfl rfl,
    c8_checkpoint_coverage.2.2.2.2.1 sinPollEsc rfl rfl rfl (by decide) (by decide),
    c8_checkpoint_coverage.2.2.2.2.2 sinBreakEsc rfl rfl rfl (fun _ => rfl) rfl⟩

/-- Witness for `c10_brief_time_reuse` at a concrete session. -/
theorem c10_brief_time_reuse_witness :
    waitsTagged "instruction" (runSession sinBase) =
      5 :: (List.range' 0 5).map sinBase.breakDraw ∧
    waitsTagged "break" (runSession sinBase) = (List.range' 0 5).map sinBase.breakDraw :=
  c10_brief_time_reuse sinBase rfl rfl (fun _ => rfl) (fun _ => rfl) (fun _ _ => rfl)

/-- Session with one ordinary trial that times out. -/
def sinT : SIn := { sinBase with data := [rowCat] }

/-- The row `sinT` writes for its single (timed-out) trial. -/
def rT : ResultRow :=
  writtenRow rowCat { answer := "", rt := RTVal.NA, iscorrect := 0, time := (0 : ℚ) - 0 }

/-- Witness for `c2_one_row_per_trial` at a concrete session and row. -/
theorem c2_one_row_per_trial_witness :
    (countWrites (runSession sinT) = countCleanPolls (runSession sinT)) ∧
    (rT.iscorrect = 1 ↔ rT.answer = rT.correct) :=
  ⟨(c2_one_row_per_trial sinT).1,
    (c2_one_row_per_trial sinT).2 rT (List.Mem.head _) (by decide)⟩
